import Mathlib

/-!
Verification of the cryojax core against its specification.

The development shallowly embeds the repository's core modules:

* `cryojax/coordinates/_coordinates.py` — real- and Fourier-space grid
  construction (`make_coordinates`, `make_frequencies`,
  `_make_coordinates_or_frequencies`, `_make_coordinates_or_frequencies_1d`),
  embedded over `ℚ` as executable list/array computations.
* `cryojax/image/operators/_masks.py` — `CircularMask` and mask application,
  embedded over `ℝ`.
* `cryojax/simulator/_ice.py` — `NullIce`, `GaussianIce` and the shared
  `AbstractIce.__call__` wrapper, with random draws and the variance kernel
  modelled as explicit function parameters.
* The atom-to-voxel density builder (`build_real_space_voxels_from_atoms` and
  the Fourier/vmapped variants), whose source is not part of this excerpt;
  those definitions are modelled from the specification and marked as such
  in their doc comments.

Machine floats are modelled by exact arithmetic (`ℚ`/`ℝ`/`ℂ`); `jax.numpy`
arrays are modelled by lists or by functions out of `Fin`-index types.
-/

namespace Cryojax

/-! ## Coordinates module: executable `ℚ` embedding -/

/-- An n-dimensional array of rationals: a shape together with an entry
function from multi-indices (entries at out-of-shape indices are junk and
never inspected by any theorem below). -/
structure NdArrayQ where
  shape : List Nat
  entry : List Nat → ℚ

/-- `numpy.fft.fftfreq n d`: frequencies `0, 1, …, ⌈n/2⌉-1, -⌊n/2⌋, …, -1`,
each divided by `n*d`. -/
def fftfreqList (n : Nat) (d : ℚ) : List ℚ :=
  (List.range n).map (fun k =>
    if k < (n + 1) / 2 then (k : ℚ) / (n * d) else ((k : ℚ) - n) / (n * d))

/-- `numpy.fft.rfftfreq n d`: frequencies `0, 1, …, ⌊n/2⌋`, divided by `n*d`. -/
def rfftfreqList (n : Nat) (d : ℚ) : List ℚ :=
  (List.range (n / 2 + 1)).map (fun (k : Nat) => (k : ℚ) / (n * d))

/-- `numpy.fft.fftshift` on a 1D array: rotate left by `⌈n/2⌉`. -/
def fftshiftList (l : List ℚ) : List ℚ :=
  l.drop ((l.length + 1) / 2) ++ l.take ((l.length + 1) / 2)

/-- Swap the first two entries of a list (the `shape[:2][::-1]` reversal and
the axis swap performed by `indexing="xy"`). -/
def swap12 {α : Type} : List α → List α
  | a :: b :: rest => b :: a :: rest
  | l => l

/-- Apply the `indexing="xy"` axis swap, or nothing for `indexing="ij"`. -/
def permXY {α : Type} (indexing : String) (l : List α) : List α :=
  if indexing = "xy" then swap12 l else l

/-- `jnp.stack(jnp.meshgrid(*axes, indexing=indexing), axis=-1)`: the stacked
meshgrid of the given 1D axes.  With `indexing="xy"` the first two output axes
are swapped relative to `indexing="ij"`; output array `i` at spatial
multi-index `j` reads `axes[i]` at position `(swap12 j)[i]`. -/
def meshgridStack (indexing : String) (axes : List (List ℚ)) : NdArrayQ where
  shape := permXY indexing (axes.map List.length) ++ [axes.length]
  entry := fun idx =>
    (axes.getD (idx.getLastD 0) []).getD
      ((permXY indexing idx.dropLast).getD (idx.getLastD 0) 0) 0

/-- `_make_coordinates_or_frequencies_1d`: one-dimensional coordinates in real
or Fourier space.  Raises (returns `.error`) when `real_space=False` and the
`rfftfreq` selector is `None`.  The real-space branch computes `1 / dx` as a
Python scalar division before anything reaches jax, so it raises
`ZeroDivisionError` at zero grid spacing; since division on `ℚ` is total,
that error path is modelled explicitly.  The frequency branch passes the
spacing to `fftfreq`/`rfftfreq`, whose division happens at the jax array
level (no raise). -/
def _make_coordinates_or_frequencies_1d (size : Nat) (grid_spacing : ℚ)
    (real_space : Bool) (rfftfreq : Option Bool) : Except String (List ℚ) :=
  if real_space then
    if grid_spacing = 0 then
      .error "division by zero"
    else
      .ok ((fftshiftList (fftfreqList size (1 / grid_spacing))).map
        (fun c => c * (size : ℚ)))
  else
    match rfftfreq with
    | none => .error "Argument rfftfreq cannot be None if real_space=False."
    | some b =>
      .ok (if b then rfftfreqList size grid_spacing
           else fftfreqList size grid_spacing)

/-- The per-axis `rfftfreq`-selection flag computed inline by
`_make_coordinates_or_frequencies` for the frequency-space branch: `False`
whenever `half_space` is off; with `half_space` on, axis `0` exactly in the
2D `indexing="xy"` case, and otherwise exactly the last axis. -/
def rfftfreqFlag (indexing : String) (ndim idx : Nat) (half_space : Bool) :
    Bool :=
  if !half_space then false
  else if indexing = "xy" && ndim == 2 then idx == 0
  else !(idx < ndim - 1)

/-- `_make_coordinates_or_frequencies`: build all 1D axes (after the
`indexing="xy"` reversal of the first two shape entries), then assemble the
stacked meshgrid.  `jnp.stack` of an empty list raises. -/
def _make_coordinates_or_frequencies (shape : List Nat) (grid_spacing : ℚ)
    (real_space : Bool) (half_space : Bool) (indexing : String) :
    Except String NdArrayQ := do
  let ndim := shape.length
  let shape2 := if indexing = "xy" then swap12 shape else shape
  let coords1D ← (List.range ndim).mapM (fun idx =>
    if real_space then
      _make_coordinates_or_frequencies_1d (shape2.getD idx 0) grid_spacing
        true none
    else
      _make_coordinates_or_frequencies_1d (shape2.getD idx 0) grid_spacing
        false (some (rfftfreqFlag indexing ndim idx half_space)))
  if coords1D.isEmpty then
    .error "need at least one array to stack"
  else
    .ok (meshgridStack indexing coords1D)

/-- `make_coordinates shape grid_spacing`: real-space cartesian grid. -/
def make_coordinates (shape : List Nat) (grid_spacing : ℚ) :
    Except String NdArrayQ :=
  _make_coordinates_or_frequencies shape grid_spacing true true "xy"

/-- `make_frequencies shape grid_spacing half_space`: Fourier-space grid. -/
def make_frequencies (shape : List Nat) (grid_spacing : ℚ)
    (half_space : Bool) : Except String NdArrayQ :=
  _make_coordinates_or_frequencies shape grid_spacing false half_space "xy"

/-- Whether an `Except` computation succeeded (no exception raised). -/
def exceptOk {ε α : Type} : Except ε α → Bool
  | .ok _ => true
  | .error _ => false

/-- The output spatial shape on the half space: the last axis is truncated
to its `⌊n/2⌋ + 1` non-negative frequencies. -/
def halfSpaceShape (shape : List Nat) : List Nat :=
  shape.dropLast ++ [shape.getLastD 0 / 2 + 1]

/-! ## Masks module: `ℝ` embedding -/

/-- `jnp.linalg.norm(p, axis=-1)` of one coordinate vector: the Euclidean
norm, for coordinate vectors of any dimension. -/
noncomputable def normR (p : List ℝ) : ℝ :=
  Real.sqrt ((p.map (fun x => x ^ 2)).sum)

/-- `.max()` of a jax array holding the given values, seeded with `0`;
this agrees with the true maximum for any nonempty array of nonnegative
values, which is the only way the mask code uses it (radial norms). -/
noncomputable def arrayMax (l : List ℝ) : ℝ := l.foldr max 0

/-- The raised-cosine expression of `_compute_circular_mask`:
`0.5 * (1 + cos((r - r_cut - rolloff_width) / rolloff_width * pi))`. -/
noncomputable def raisedCosine (r_cut rolloff_width r : ℝ) : ℝ :=
  0.5 * (1 + Real.cos ((r - r_cut - rolloff_width) / rolloff_width * Real.pi))

/-- `_compute_circular_mask`: radial norms per voxel;
`rolloff_width = rolloff * coords_norm.max()`; the raised-cosine value,
overridden by `0` where the norm exceeds the radius (first `where`), which
is in turn overridden by `1` where the norm is at most
`radius - rolloff_width` (second `where`). -/
noncomputable def _compute_circular_mask
    (coordinate_grid_in_angstroms : List (List ℝ)) (radius : ℝ)
    (rolloff : ℝ) : List ℝ :=
  let coords_norm := coordinate_grid_in_angstroms.map normR
  let r_cut := radius
  let rolloff_width := rolloff * arrayMax coords_norm
  coords_norm.map (fun r =>
    let mask := raisedCosine r_cut rolloff_width r
    let mask := if r > r_cut then (0 : ℝ) else mask
    if r ≤ r_cut - rolloff_width then (1 : ℝ) else mask)

/-- `CircularMask.__init__`: the stored buffer is
`_compute_circular_mask(coordinate_grid_in_angstroms, radius, rolloff)`. -/
noncomputable def CircularMask.buffer
    (coordinate_grid_in_angstroms : List (List ℝ)) (radius rolloff : ℝ) :
    List ℝ :=
  _compute_circular_mask coordinate_grid_in_angstroms radius rolloff

/-- `AbstractMask.__call__`: elementwise
`image * jax.lax.stop_gradient(buffer)`; `stop_gradient` is the identity
on values. -/
def maskApply (buffer image : List ℝ) : List ℝ :=
  List.zipWith (fun x b => x * b) image buffer

/-! ## Ice module -/

/-- A JAX PRNG key, opaque to the ice models: they only thread it into the
normal-sampling primitive, which is modelled as an explicit function
parameter below. -/
abbrev PRNGKey : Type := Nat

/-- The `ImageConfig` collaborator: only the accessor the ice wrapper uses
(the padded frequency grid, an array of shape `(m, n, 2)`) is modelled. -/
structure ImageConfig (m n : Nat) where
  padded_frequency_grid_in_angstroms : Fin m → Fin n → ℝ × ℝ

/-- `AbstractIce.__call__`: compute a realization of the ice surrounding a
specimen by calling `sample` on the key and the configuration's padded
frequency grid.  The exit-plane image argument is accepted but not used.
The abstract method `sample` is a parameter (each concrete ice model
supplies its own). -/
def AbstractIce.call {m n : Nat} {β : Type}
    (sample : PRNGKey → (Fin m → Fin n → ℝ × ℝ) → β) (key : PRNGKey)
    (image_at_exit_plane : Fin m → Fin n → ℂ) (config : ImageConfig m n) :
    β :=
  sample key config.padded_frequency_grid_in_angstroms

/-- `NullIce.sample`: `jnp.zeros(grid.shape[0:-1])` — an all-zero array of
the frequency grid's spatial shape whose entries are real-valued (`ℝ`, the
default float dtype), not complex as the abstract contract declares. -/
def NullIce.sample {m n : Nat} (key : PRNGKey)
    (frequency_grid_in_angstroms : Fin m → Fin n → ℝ × ℝ) :
    Fin m → Fin n → ℝ :=
  fun _ _ => 0

/-- `GaussianIce.sample`: the variance kernel evaluated on the frequency
grid, multiplied pointwise by a complex standard-normal draw of the grid's
spatial shape, with the DC entry `[0,0]` then set to exactly `0+0i`.  The
draw `jax.random.normal(key, shape, complex)` is modelled as an arbitrary
function of the key, so the theorems hold for every realization; the
variance kernel (a `FourierOperatorLike`) is likewise arbitrary. -/
def GaussianIce.sample {m n : Nat}
    (variance : (Fin m → Fin n → ℝ × ℝ) → Fin m → Fin n → ℝ)
    (normal : PRNGKey → Fin m → Fin n → ℂ) (key : PRNGKey)
    (frequency_grid_in_angstroms : Fin m → Fin n → ℝ × ℝ) :
    Fin m → Fin n → ℂ :=
  fun i j =>
    if i.val = 0 ∧ j.val = 0 then 0
    else (variance frequency_grid_in_angstroms i j : ℂ) * normal key i j

/-! ## Density builder (modelled from the spec) -/

/-- Modelled from the spec: the closed-form 3D Gaussian kernel of one
scattering term, `exp(-(4*pi/b) * |v - p|^2)`, centered at the atom position
`p`, shaped by the width parameter `b`. -/
noncomputable def gauss3 (b : ℝ) (p v : ℝ × ℝ × ℝ) : ℝ :=
  Real.exp (-(4 * Real.pi / b) *
    ((v.1 - p.1) ^ 2 + (v.2.1 - p.2.1) ^ 2 + (v.2.2 - p.2.2) ^ 2))

/-- Modelled from the spec: the per-atom voxel weight.  The spec requires
the Gaussian kernel to be "normalized so that the total integral of the
resulting density (density sum × voxel volume) equals the sum of the
amplitude parameters `a` … independently of grid resolution", so the kernel
is normalized by its own sum over the realized grid times the voxel
volume. -/
noncomputable def gaussianVoxelWeight {n₁ n₂ n₃ : Nat}
    (grid : Fin n₁ → Fin n₂ → Fin n₃ → ℝ × ℝ × ℝ) (voxel_size b : ℝ)
    (p v : ℝ × ℝ × ℝ) : ℝ :=
  gauss3 b p v /
    (voxel_size ^ 3 *
      ∑ i : Fin n₁, ∑ j : Fin n₂, ∑ k : Fin n₃, gauss3 b p (grid i j k))

/-- Modelled from the spec: `build_real_space_voxels_from_atoms` (its source
is not part of this excerpt; only its tests are).  Each voxel value is the
sum over all atoms of the normalized Gaussian centered at the atom position,
evaluated at the voxel's coordinates, weighted by the amplitude `a` and
shaped by `b`; atoms are the entries of `positions` zipped with their
scattering parameters. -/
noncomputable def build_real_space_voxels_from_atoms {n₁ n₂ n₃ : Nat}
    (atom_positions : List (ℝ × ℝ × ℝ)) (ff_a ff_b : List ℝ)
    (grid : Fin n₁ → Fin n₂ → Fin n₃ → ℝ × ℝ × ℝ) (voxel_size : ℝ) :
    Fin n₁ → Fin n₂ → Fin n₃ → ℝ :=
  fun i j k =>
    ((atom_positions.zip (ff_a.zip ff_b)).map (fun pab =>
      pab.2.1 * gaussianVoxelWeight grid voxel_size pab.2.2 pab.1
        (grid i j k))).sum

/-- Modelled from the spec: the batched (`jax.vmap`-ed over the leading
trajectory axis) density builder; a vmapped pure function acts frame by
frame with no cross-frame interaction, i.e. it is `List.map` of the
single-frame builder. -/
noncomputable def build_voxels_from_trajectories {n₁ n₂ n₃ : Nat}
    (trajectory : List (List (ℝ × ℝ × ℝ))) (ff_a ff_b : List ℝ)
    (grid : Fin n₁ → Fin n₂ → Fin n₃ → ℝ × ℝ × ℝ) (voxel_size : ℝ) :
    List (Fin n₁ → Fin n₂ → Fin n₃ → ℝ) :=
  trajectory.map (fun atom_positions =>
    build_real_space_voxels_from_atoms atom_positions ff_a ff_b grid
      voxel_size)

/-! ## Discrete Fourier transform and the Fourier-space voxel grid -/

/-- The primitive `N`-th root of unity `exp(2*pi*i/N)` underlying the
numpy/jax FFT convention. -/
noncomputable def zeta (N : Nat) : ℂ :=
  Complex.exp (2 * (Real.pi : ℂ) * Complex.I / (N : ℂ))

/-- One-dimensional DFT, numpy forward convention:
`X_k = sum_j x_j * exp(-2*pi*i*k*j/N)`. -/
noncomputable def dft1 {N : Nat} (v : Fin N → ℂ) (k : Fin N) : ℂ :=
  ∑ j : Fin N, v j * zeta N ^ (-((k.val * j.val : Nat) : ℤ))

/-- One-dimensional inverse DFT, numpy convention (`1/N` normalization):
`x_j = (1/N) * sum_k X_k * exp(2*pi*i*k*j/N)`. -/
noncomputable def idft1 {N : Nat} (v : Fin N → ℂ) (j : Fin N) : ℂ :=
  (∑ k : Fin N, v k * zeta N ^ ((k.val * j.val : Nat) : ℤ)) / (N : ℂ)

/-- `numpy.fft.fftshift` along one axis: entry `i` reads
`(i + N/2) mod N`. -/
def fftshift1 {N : Nat} (v : Fin N → ℂ) : Fin N → ℂ :=
  fun i => v ⟨(i.val + N / 2) % N, Nat.mod_lt _ i.pos⟩

/-- `numpy.fft.ifftshift` along one axis: entry `i` reads
`(i + (N - N/2)) mod N` (the inverse rotation). -/
def ifftshift1 {N : Nat} (v : Fin N → ℂ) : Fin N → ℂ :=
  fun i => v ⟨(i.val + (N - N / 2)) % N, Nat.mod_lt _ i.pos⟩

/-- Apply a 1D transform along axis 0 of a 3D array. -/
def mapAxis0 {n₁ n₂ n₃ : Nat} (T : (Fin n₁ → ℂ) → Fin n₁ → ℂ)
    (x : Fin n₁ → Fin n₂ → Fin n₃ → ℂ) : Fin n₁ → Fin n₂ → Fin n₃ → ℂ :=
  fun i j k => T (fun a => x a j k) i

/-- Apply a 1D transform along axis 1 of a 3D array. -/
def mapAxis1 {n₁ n₂ n₃ : Nat} (T : (Fin n₂ → ℂ) → Fin n₂ → ℂ)
    (x : Fin n₁ → Fin n₂ → Fin n₃ → ℂ) : Fin n₁ → Fin n₂ → Fin n₃ → ℂ :=
  fun i j k => T (fun b => x i b k) j

/-- Apply a 1D transform along axis 2 of a 3D array. -/
def mapAxis2 {n₁ n₂ n₃ : Nat} (T : (Fin n₃ → ℂ) → Fin n₃ → ℂ)
    (x : Fin n₁ → Fin n₂ → Fin n₃ → ℂ) : Fin n₁ → Fin n₂ → Fin n₃ → ℂ :=
  fun i j k => T (fun c => x i j c) k

/-- `jnp.fft.fftn` on a 3D array: the 1D DFT along every axis. -/
noncomputable def fftn3 {n₁ n₂ n₃ : Nat}
    (x : Fin n₁ → Fin n₂ → Fin n₃ → ℂ) : Fin n₁ → Fin n₂ → Fin n₃ → ℂ :=
  mapAxis2 dft1 (mapAxis1 dft1 (mapAxis0 dft1 x))

/-- `jnp.fft.ifftn` on a 3D array: the 1D inverse DFT along every axis. -/
noncomputable def ifftn3 {n₁ n₂ n₃ : Nat}
    (x : Fin n₁ → Fin n₂ → Fin n₃ → ℂ) : Fin n₁ → Fin n₂ → Fin n₃ → ℂ :=
  mapAxis0 idft1 (mapAxis1 idft1 (mapAxis2 idft1 x))

/-- `jnp.fft.fftshift` over all three axes. -/
def fftshift3 {n₁ n₂ n₃ : Nat} (x : Fin n₁ → Fin n₂ → Fin n₃ → ℂ) :
    Fin n₁ → Fin n₂ → Fin n₃ → ℂ :=
  mapAxis2 fftshift1 (mapAxis1 fftshift1 (mapAxis0 fftshift1 x))

/-- `jnp.fft.ifftshift` over all three axes. -/
def ifftshift3 {n₁ n₂ n₃ : Nat} (x : Fin n₁ → Fin n₂ → Fin n₃ → ℂ) :
    Fin n₁ → Fin n₂ → Fin n₃ → ℂ :=
  mapAxis0 ifftshift1 (mapAxis1 ifftshift1 (mapAxis2 ifftshift1 x))

/-- `jnp.transpose(x, axes=[1, 0, 2])`. -/
def transpose102 {n₁ n₂ n₃ : Nat} {α : Type}
    (x : Fin n₁ → Fin n₂ → Fin n₃ → α) : Fin n₂ → Fin n₁ → Fin n₃ → α :=
  fun j i k => x i j k

/-- Embed a real 3D array into the complex numbers. -/
noncomputable def complexify {n₁ n₂ n₃ : Nat}
    (x : Fin n₁ → Fin n₂ → Fin n₃ → ℝ) : Fin n₁ → Fin n₂ → Fin n₃ → ℂ :=
  fun i j k => ((x i j k : ℝ) : ℂ)

/-- Modelled from the spec: `FourierVoxelGrid.from_atoms` (its source is not
part of this excerpt).  Per the spec, the Fourier-space variant's contract is
consistency with the real-space variant "up to a forward Fourier transform
and frequency-origin shift convention" with a fixed `[1,0,2]` axis
permutation: the stored Fourier voxel grid is the forward FFT of the
(permuted) real-space voxel grid with the zero-frequency component shifted
to the grid center. -/
noncomputable def fourier_voxel_grid_from_atoms {n₁ n₂ n₃ : Nat}
    (atom_positions : List (ℝ × ℝ × ℝ)) (ff_a ff_b : List ℝ)
    (grid : Fin n₁ → Fin n₂ → Fin n₃ → ℝ × ℝ × ℝ) (voxel_size : ℝ) :
    Fin n₂ → Fin n₁ → Fin n₃ → ℂ :=
  fftshift3 (fftn3 (complexify (transpose102
    (build_real_space_voxels_from_atoms atom_positions ff_a ff_b grid
      voxel_size))))

/-! ## Helper lemmas -/

lemma mapM_ok {α β : Type} (l : List α) (f : α → Except String β)
    (g : α → β) (h : ∀ a ∈ l, f a = .ok (g a)) :
    l.mapM f = .ok (l.map g) := by
  induction l with
  | nil => rfl
  | cons a t ih =>
    rw [List.mapM_cons, h a (List.mem_cons_self a t),
      ih (fun b hb => h b (List.mem_cons_of_mem a hb))]
    rfl

lemma length_fftfreqList (n : Nat) (d : ℚ) : (fftfreqList n d).length = n := by
  simp [fftfreqList]

lemma length_rfftfreqList (n : Nat) (d : ℚ) :
    (rfftfreqList n d).length = n / 2 + 1 := by
  rw [rfftfreqList, List.length_map, List.length_range]

lemma length_swap12 {α : Type} (l : List α) : (swap12 l).length = l.length := by
  match l with
  | [] => rfl
  | [a] => rfl
  | a :: b :: t => rfl

lemma swap12_swap12 {α : Type} (l : List α) : swap12 (swap12 l) = l := by
  match l with
  | [] => rfl
  | [a] => rfl
  | a :: b :: t => rfl

lemma map_getD_range {α : Type} (l : List α) (d : α) :
    (List.range l.length).map (fun i => l.getD i d) = l := by
  apply List.ext_getElem
  · simp
  · intro i h1 h2
    simp [List.getD_eq_getElem?_getD, List.getElem?_eq_getElem h2]

lemma map_getD_range_pred {α : Type} (l : List α) (d : α) :
    (List.range (l.length - 1)).map (fun i => l.getD i d) = l.dropLast := by
  apply List.ext_getElem
  · simp
  · intro i h1 h2
    have hi : i < l.length - 1 := by simpa using h1
    have hi' : i < l.length := by omega
    simp [List.getD_eq_getElem?_getD, List.getElem?_eq_getElem hi',
      List.getElem_dropLast]

/-- The value of the 1D axis a given loop index receives inside
`_make_coordinates_or_frequencies`. -/
def axis1D (shape : List Nat) (grid_spacing : ℚ) (real_space half_space : Bool)
    (idx : Nat) : List ℚ :=
  if real_space then
    (fftshiftList (fftfreqList ((swap12 shape).getD idx 0)
      (1 / grid_spacing))).map (fun c => c * (((swap12 shape).getD idx 0 : Nat) : ℚ))
  else if rfftfreqFlag "xy" shape.length idx half_space then
    rfftfreqList ((swap12 shape).getD idx 0) grid_spacing
  else
    fftfreqList ((swap12 shape).getD idx 0) grid_spacing

lemma builder_eval (shape : List Nat) (gs : ℚ) (rs hs : Bool)
    (h : shape ≠ []) (hz : rs = true → gs ≠ 0) :
    _make_coordinates_or_frequencies shape gs rs hs "xy"
      = .ok (meshgridStack "xy"
          ((List.range shape.length).map (axis1D shape gs rs hs))) := by
  rw [_make_coordinates_or_frequencies]
  have hmm := mapM_ok (List.range shape.length)
    (fun idx =>
      if rs then
        _make_coordinates_or_frequencies_1d ((if "xy" = "xy" then swap12 shape
          else shape).getD idx 0) gs true none
      else
        _make_coordinates_or_frequencies_1d ((if "xy" = "xy" then swap12 shape
          else shape).getD idx 0) gs false
          (some (rfftfreqFlag "xy" shape.length idx hs)))
    (axis1D shape gs rs hs)
    (by
      intro a _
      simp only [if_pos rfl]
      cases rs with
      | true =>
        simp [_make_coordinates_or_frequencies_1d, axis1D, hz rfl]
      | false =>
        simp only [_make_coordinates_or_frequencies_1d, axis1D, Bool.false_eq_true,
          if_false]
        cases hflag : rfftfreqFlag "xy" shape.length a hs <;> simp)
  simp only [if_pos rfl] at hmm ⊢
  rw [hmm]
  have hne : ((List.range shape.length).map (axis1D shape gs rs hs)).isEmpty
      = false := by
    rw [List.isEmpty_eq_false_iff_exists_mem]
    have : 0 < shape.length := List.length_pos.mpr h
    exact ⟨axis1D shape gs rs hs 0, List.mem_map_of_mem _ (List.mem_range.mpr this)⟩
  simp [Bind.bind, Except.bind, hne]

lemma builder_eval_zero (shape : List Nat) (hs : Bool) (h : shape ≠ []) :
    _make_coordinates_or_frequencies shape 0 true hs "xy"
      = .error "division by zero" := by
  rw [_make_coordinates_or_frequencies]
  simp only [if_pos rfl]
  cases shape with
  | nil => exact absurd rfl h
  | cons a t =>
    rw [show (a :: t : List Nat).length = t.length + 1 from rfl,
      List.range_succ_eq_map, List.mapM_cons]
    rfl

lemma meshgridStack_shape (indexing : String) (axes : List (List ℚ)) :
    (meshgridStack indexing axes).shape
      = permXY indexing (axes.map List.length) ++ [axes.length] := rfl

lemma length_axis1D_freq (shape : List Nat) (gs : ℚ) (hs : Bool) (idx : Nat) :
    (axis1D shape gs false hs idx).length
      = if rfftfreqFlag "xy" shape.length idx hs then
          (swap12 shape).getD idx 0 / 2 + 1
        else (swap12 shape).getD idx 0 := by
  by_cases hf : rfftfreqFlag "xy" shape.length idx hs = true <;>
    simp [axis1D, hf, length_rfftfreqList, length_fftfreqList]

lemma rfftfreqFlag_full (indexing : String) (ndim idx : Nat) :
    rfftfreqFlag indexing ndim idx false = false := by
  simp [rfftfreqFlag]

lemma rfftfreqFlag_of_lt (ndim idx : Nat) (h2 : ndim ≠ 2)
    (hlt : idx < ndim - 1) : rfftfreqFlag "xy" ndim idx true = false := by
  simp [rfftfreqFlag, h2, hlt]

lemma rfftfreqFlag_last (ndim : Nat) (h2 : ndim ≠ 2) :
    rfftfreqFlag "xy" ndim (ndim - 1) true = true := by
  simp [rfftfreqFlag, h2]

lemma getD_cons_length (l : List Nat) (a d : Nat) :
    (a :: l).getD l.length d = (a :: l).getLastD 0 := by
  induction l generalizing a with
  | nil => rfl
  | cons b t ih =>
    rw [List.getLastD_cons, show (b :: t).length = t.length + 1 from rfl]
    rw [List.getD_cons_succ, ih b]
    rw [List.getLastD_cons, List.getLastD_cons]

lemma swap12_getD_last (L : List Nat) (h2 : L.length ≠ 2) :
    (swap12 L).getD (L.length - 1) 0 = L.getLastD 0 := by
  match L with
  | [] => rfl
  | [s] => rfl
  | [a, b] => exact absurd rfl h2
  | a :: b :: c :: t =>
    show (b :: a :: c :: t).getD (t.length + 2) 0 = _
    rw [List.getD_cons_succ, List.getD_cons_succ]
    rw [show t.length = (c :: t).length - 1 from rfl]
    rw [show (c :: t).length - 1 = (c :: t).length - 1 from rfl]
    rw [show ((c :: t).length - 1) = t.length from rfl]
    rw [getD_cons_length t c 0]
    rw [List.getLastD_cons, List.getLastD_cons, List.getLastD_cons,
      List.getLastD_cons]

lemma swap12_dropLast_append (L : List Nat) (v : Nat) (h1 : L ≠ [])
    (h2 : L.length ≠ 2) :
    swap12 ((swap12 L).dropLast ++ [v]) = L.dropLast ++ [v] := by
  match L with
  | [s] => rfl
  | [a, b] => exact absurd rfl h2
  | a :: b :: c :: t => rfl

lemma axes_lengths_halfspace (L : List Nat) (gs : ℚ) (h1 : L ≠ [])
    (h2 : L.length ≠ 2) :
    (List.range L.length).map (fun idx => (axis1D L gs false true idx).length)
      = (swap12 L).dropLast ++ [(swap12 L).getD (L.length - 1) 0 / 2 + 1] := by
  have hn : L.length = (L.length - 1) + 1 := by
    cases L with
    | nil => exact absurd rfl h1
    | cons a t => simp
  rw [hn, List.range_succ, List.map_append]
  congr 1
  · rw [List.map_congr_left (g := fun idx => (swap12 L).getD idx 0)
      (by
        intro idx hidx
        have hlt : idx < L.length - 1 := List.mem_range.mp hidx
        rw [length_axis1D_freq, rfftfreqFlag_of_lt L.length idx h2 hlt, if_neg]
        simp)]
    rw [show L.length - 1 = (swap12 L).length - 1 from by rw [length_swap12]]
    exact map_getD_range_pred (swap12 L) 0
  · have hf := rfftfreqFlag_last L.length h2
    simp [length_axis1D_freq, hf]

lemma arrayMax_nonneg (l : List ℝ) : 0 ≤ arrayMax l := by
  rw [arrayMax]
  induction l with
  | nil => exact le_refl 0
  | cons a t ih => exact le_trans ih (le_max_right a _)

lemma circular_mask_getD (grid : List (List ℝ)) (radius rolloff : ℝ)
    (i : Nat) (hi : i < grid.length) :
    (CircularMask.buffer grid radius rolloff).getD i 0
      = (if normR (grid.getD i []) ≤
            radius - rolloff * arrayMax (grid.map normR) then (1 : ℝ)
         else if normR (grid.getD i []) > radius then 0
         else raisedCosine radius (rolloff * arrayMax (grid.map normR))
            (normR (grid.getD i []))) := by
  show ((grid.map normR).map (fun r =>
      if r ≤ radius - rolloff * arrayMax (grid.map normR) then (1 : ℝ)
      else if r > radius then 0
      else raisedCosine radius (rolloff * arrayMax (grid.map normR)) r)).getD
      i 0 = _
  have h1 : i < ((grid.map normR).map (fun r =>
      if r ≤ radius - rolloff * arrayMax (grid.map normR) then (1 : ℝ)
      else if r > radius then 0
      else raisedCosine radius (rolloff * arrayMax (grid.map normR))
        r)).length := by
    simpa using hi
  rw [List.getD_eq_getElem _ _ h1, List.getElem_map, List.getElem_map,
    List.getD_eq_getElem _ _ hi]

lemma getD_zipWith_mul (img buf : List ℝ) (i : Nat) :
    (List.zipWith (fun x b => x * b) img buf).getD i 0
      = img.getD i 0 * buf.getD i 0 := by
  induction img generalizing buf i with
  | nil => simp
  | cons x xs ih =>
    cases buf with
    | nil => simp
    | cons b bs =>
      cases i with
      | zero => simp
      | succ n => simpa using ih bs n

lemma raisedCosine_nonneg (rc w r : ℝ) : 0 ≤ raisedCosine rc w r := by
  rw [raisedCosine]
  nlinarith [Real.neg_one_le_cos ((r - rc - w) / w * Real.pi)]

lemma raisedCosine_le_one (rc w r : ℝ) : raisedCosine rc w r ≤ 1 := by
  rw [raisedCosine]
  nlinarith [Real.cos_le_one ((r - rc - w) / w * Real.pi)]

lemma raisedCosine_antitone (rc w r1 r2 : ℝ) (h1 : rc - w < r1)
    (h12 : r1 ≤ r2) (h2 : r2 ≤ rc) :
    raisedCosine rc w r2 ≤ raisedCosine rc w r1 := by
  have hw : 0 < w := by linarith
  have hpi := Real.pi_pos
  have hq1 : (-2 : ℝ) < (r1 - rc - w) / w := by
    rw [lt_div_iff₀ hw]
    linarith
  have hq2 : (r2 - rc - w) / w ≤ -1 := by
    rw [div_le_iff₀ hw]
    linarith
  have hq12 : (r1 - rc - w) / w ≤ (r2 - rc - w) / w := by
    rw [div_le_iff₀ hw, div_mul_eq_mul_div, le_div_iff₀ hw]
    nlinarith
  have hp1 := mul_pos (show (0 : ℝ) < (r1 - rc - w) / w + 2 by linarith) hpi
  have hp2 := mul_le_mul_of_nonneg_right
    (show (r2 - rc - w) / w + 2 ≤ 1 by linarith) hpi.le
  have hp12 := mul_le_mul_of_nonneg_right hq12 hpi.le
  have hu1 : 0 ≤ (r1 - rc - w) / w * Real.pi + 2 * Real.pi := by nlinarith
  have hu2 : (r2 - rc - w) / w * Real.pi + 2 * Real.pi ≤ Real.pi := by
    nlinarith
  have hu12 : (r1 - rc - w) / w * Real.pi + 2 * Real.pi
      ≤ (r2 - rc - w) / w * Real.pi + 2 * Real.pi := by nlinarith
  have hcos := Real.cos_le_cos_of_nonneg_of_le_pi hu1 hu2 hu12
  rw [Real.cos_add_two_pi, Real.cos_add_two_pi] at hcos
  rw [raisedCosine, raisedCosine]
  linarith

lemma triple_sum_list_sum {α : Type} {n₁ n₂ n₃ : Nat} (L : List α)
    (g : α → Fin n₁ → Fin n₂ → Fin n₃ → ℝ) :
    ∑ i : Fin n₁, ∑ j : Fin n₂, ∑ k : Fin n₃,
        (L.map (fun e => g e i j k)).sum
      = (L.map (fun e => ∑ i : Fin n₁, ∑ j : Fin n₂, ∑ k : Fin n₃,
          g e i j k)).sum := by
  induction L with
  | nil => simp
  | cons e t ih =>
    simp only [List.map_cons, List.sum_cons, Finset.sum_add_distrib, ih]

lemma gauss3_grid_sum_pos {n₁ n₂ n₃ : Nat}
    (grid : Fin n₁ → Fin n₂ → Fin n₃ → ℝ × ℝ × ℝ) (b : ℝ) (p : ℝ × ℝ × ℝ)
    (h1 : 0 < n₁) (h2 : 0 < n₂) (h3 : 0 < n₃) :
    0 < ∑ i : Fin n₁, ∑ j : Fin n₂, ∑ k : Fin n₃, gauss3 b p (grid i j k) := by
  have e1 : Nonempty (Fin n₁) := ⟨⟨0, h1⟩⟩
  have e2 : Nonempty (Fin n₂) := ⟨⟨0, h2⟩⟩
  have e3 : Nonempty (Fin n₃) := ⟨⟨0, h3⟩⟩
  apply Finset.sum_pos _ Finset.univ_nonempty
  intro i _
  apply Finset.sum_pos _ Finset.univ_nonempty
  intro j _
  apply Finset.sum_pos _ Finset.univ_nonempty
  intro k _
  exact Real.exp_pos _

lemma weight_sum {n₁ n₂ n₃ : Nat}
    (grid : Fin n₁ → Fin n₂ → Fin n₃ → ℝ × ℝ × ℝ) (s b : ℝ) (p : ℝ × ℝ × ℝ)
    (a : ℝ) (hs : s ≠ 0) (h1 : 0 < n₁) (h2 : 0 < n₂) (h3 : 0 < n₃) :
    ∑ i : Fin n₁, ∑ j : Fin n₂, ∑ k : Fin n₃,
        a * gaussianVoxelWeight grid s b p (grid i j k)
      = a / s ^ 3 := by
  have hS := gauss3_grid_sum_pos grid b p h1 h2 h3
  simp only [gaussianVoxelWeight]
  simp only [← Finset.mul_sum]
  simp only [← Finset.sum_div]
  rw [mul_comm (s ^ 3), ← div_div, div_self (ne_of_gt hS), mul_one_div]

lemma list_sum_div_mul {α : Type} (L : List α) (f : α → ℝ) (c : ℝ)
    (hc : c ≠ 0) :
    ((L.map (fun e => f e / c)).sum) * c = (L.map f).sum := by
  induction L with
  | nil => simp
  | cons e t ih =>
    simp only [List.map_cons, List.sum_cons, add_mul, div_mul_cancel₀ _ hc,
      ih]

lemma zip_sum_div_mul (L : List ((ℝ × ℝ × ℝ) × ℝ × ℝ)) (c : ℝ) (hc : c ≠ 0) :
    ((L.map (fun e => e.2.1 / c)).sum) * c = (L.map (fun e => e.2.1)).sum := by
  induction L with
  | nil => simp
  | cons e t ih =>
    simp only [List.map_cons, List.sum_cons, add_mul, div_mul_cancel₀ _ hc,
      ih]

lemma zip_map_amp : ∀ (l₁ : List (ℝ × ℝ × ℝ)) (l₂ l₃ : List ℝ),
    l₁.length = l₂.length → l₂.length = l₃.length →
    ((l₁.zip (l₂.zip l₃)).map (fun e => e.2.1)) = l₂ := by
  intro l₁
  induction l₁ with
  | nil =>
    intro l₂ l₃ hlen1 _
    cases l₂ with
    | nil => rfl
    | cons a t₂ => simp at hlen1
  | cons p t ih =>
    intro l₂ l₃ hlen1 hlen2
    cases l₂ with
    | nil => simp at hlen1
    | cons a t₂ =>
      cases l₃ with
      | nil => simp at hlen2
      | cons b t₃ =>
        simp only [List.zip_cons_cons, List.map_cons, List.cons.injEq]
        exact ⟨trivial, ih t₂ t₃ (by simpa using hlen1) (by simpa using hlen2)⟩

lemma zeta_ne_zero (N : Nat) : zeta N ≠ 0 :=
  Complex.exp_ne_zero _

lemma zeta_sum_orth (n : Nat) (m : ℤ) :
    ∑ k : Fin (n + 1), zeta (n + 1) ^ (m * (k.val : ℤ))
      = if ((n + 1 : Nat) : ℤ) ∣ m then ((n + 1 : Nat) : ℂ) else 0 := by
  have hprim : IsPrimitiveRoot (zeta (n + 1)) (n + 1) :=
    Complex.isPrimitiveRoot_exp (n + 1) (Nat.succ_ne_zero n)
  by_cases hdvd : ((n + 1 : Nat) : ℤ) ∣ m
  · rw [if_pos hdvd]
    have hone : zeta (n + 1) ^ m = 1 :=
      (hprim.zpow_eq_one_iff_dvd m).mpr hdvd
    calc ∑ k : Fin (n + 1), zeta (n + 1) ^ (m * (k.val : ℤ))
        = ∑ k : Fin (n + 1), (zeta (n + 1) ^ m) ^ (k.val : Nat) := by
          apply Finset.sum_congr rfl
          intro k _
          rw [zpow_mul, zpow_natCast]
      _ = ∑ _k : Fin (n + 1), (1 : ℂ) := by rw [hone]; simp
      _ = ((n + 1 : Nat) : ℂ) := by simp
  · rw [if_neg hdvd]
    have hw : zeta (n + 1) ^ m ≠ 1 := fun hone =>
      hdvd ((hprim.zpow_eq_one_iff_dvd m).mp hone)
    have hwN : (zeta (n + 1) ^ m) ^ (n + 1) = 1 := by
      rw [← zpow_natCast, ← zpow_mul, mul_comm, zpow_mul, zpow_natCast,
        hprim.pow_eq_one, one_zpow]
    calc ∑ k : Fin (n + 1), zeta (n + 1) ^ (m * (k.val : ℤ))
        = ∑ k : Fin (n + 1), (zeta (n + 1) ^ m) ^ (k.val : Nat) := by
          apply Finset.sum_congr rfl
          intro k _
          rw [zpow_mul, zpow_natCast]
      _ = ∑ k ∈ Finset.range (n + 1), (zeta (n + 1) ^ m) ^ k :=
          Fin.sum_univ_eq_sum_range (fun t => (zeta (n + 1) ^ m) ^ t) (n + 1)
      _ = ((zeta (n + 1) ^ m) ^ (n + 1) - 1) / (zeta (n + 1) ^ m - 1) :=
          geom_sum_eq hw (n + 1)
      _ = 0 := by rw [hwN]; simp

lemma idft1_dft1 {N : Nat} (v : Fin N → ℂ) : idft1 (dft1 v) = v := by
  funext j
  cases N with
  | zero => exact j.elim0
  | succ n =>
    show (∑ k : Fin (n + 1), dft1 v k *
        zeta (n + 1) ^ ((k.val * j.val : Nat) : ℤ)) / ((n + 1 : Nat) : ℂ)
      = v j
    have key : (∑ k : Fin (n + 1), dft1 v k *
        zeta (n + 1) ^ ((k.val * j.val : Nat) : ℤ))
        = ∑ jp : Fin (n + 1), v jp * ∑ k : Fin (n + 1),
            zeta (n + 1) ^ (((j.val : ℤ) - (jp.val : ℤ)) * (k.val : ℤ)) := by
      simp only [dft1, Finset.sum_mul]
      rw [Finset.sum_comm]
      apply Finset.sum_congr rfl
      intro jp _
      rw [Finset.mul_sum]
      apply Finset.sum_congr rfl
      intro k _
      rw [mul_assoc, ← zpow_add₀ (zeta_ne_zero _)]
      congr 1
      push_cast
      ring
    rw [key]
    have horth : ∀ jp : Fin (n + 1),
        v jp * (∑ k : Fin (n + 1),
            zeta (n + 1) ^ (((j.val : ℤ) - (jp.val : ℤ)) * (k.val : ℤ)))
          = if jp = j then v jp * ((n + 1 : Nat) : ℂ) else 0 := by
      intro jp
      rw [zeta_sum_orth n ((j.val : ℤ) - (jp.val : ℤ))]
      by_cases he : jp = j
      · subst he
        rw [if_pos rfl, if_pos (by simp)]
      · rw [if_neg ?hnd, if_neg he, mul_zero]
        case hnd =>
          intro hdvd
          have habs : |(j.val : ℤ) - (jp.val : ℤ)| < ((n + 1 : Nat) : ℤ) := by
            rw [abs_lt]
            have hj := j.isLt
            have hjp := jp.isLt
            omega
          have hz := Int.eq_zero_of_abs_lt_dvd hdvd habs
          exact he (Fin.ext (by omega))
    rw [Finset.sum_congr rfl (fun jp _ => horth jp),
      Finset.sum_ite_eq' Finset.univ j (fun jp => v jp * ((n + 1 : Nat) : ℂ)),
      if_pos (Finset.mem_univ j)]
    exact mul_div_cancel_right₀ _ (Nat.cast_ne_zero.mpr (Nat.succ_ne_zero n))

lemma ifftshift1_fftshift1 {N : Nat} (v : Fin N → ℂ) :
    ifftshift1 (fftshift1 v) = v := by
  funext i
  show v ⟨((i.val + (N - N / 2)) % N + N / 2) % N, _⟩ = v i
  congr 1
  apply Fin.ext
  show ((i.val + (N - N / 2)) % N + N / 2) % N = i.val
  have h2 : N / 2 ≤ N := Nat.div_le_self N 2
  rw [Nat.mod_add_mod, show i.val + (N - N / 2) + N / 2 = i.val + N by omega,
    Nat.add_mod_right]
  exact Nat.mod_eq_of_lt i.isLt

lemma mapAxis0_comp_inv {n₁ n₂ n₃ : Nat}
    (T Tinv : (Fin n₁ → ℂ) → Fin n₁ → ℂ) (hTT : ∀ w, Tinv (T w) = w)
    (x : Fin n₁ → Fin n₂ → Fin n₃ → ℂ) :
    mapAxis0 Tinv (mapAxis0 T x) = x := by
  funext i j k
  show Tinv (fun a => T (fun b => x b j k) a) i = x i j k
  rw [show (fun a => T (fun b => x b j k) a) = T (fun b => x b j k) from rfl,
    hTT]

lemma mapAxis1_comp_inv {n₁ n₂ n₃ : Nat}
    (T Tinv : (Fin n₂ → ℂ) → Fin n₂ → ℂ) (hTT : ∀ w, Tinv (T w) = w)
    (x : Fin n₁ → Fin n₂ → Fin n₃ → ℂ) :
    mapAxis1 Tinv (mapAxis1 T x) = x := by
  funext i j k
  show Tinv (fun a => T (fun b => x i b k) a) j = x i j k
  rw [show (fun a => T (fun b => x i b k) a) = T (fun b => x i b k) from rfl,
    hTT]

lemma mapAxis2_comp_inv {n₁ n₂ n₃ : Nat}
    (T Tinv : (Fin n₃ → ℂ) → Fin n₃ → ℂ) (hTT : ∀ w, Tinv (T w) = w)
    (x : Fin n₁ → Fin n₂ → Fin n₃ → ℂ) :
    mapAxis2 Tinv (mapAxis2 T x) = x := by
  funext i j k
  show Tinv (fun a => T (fun b => x i j b) a) k = x i j k
  rw [show (fun a => T (fun b => x i j b) a) = T (fun b => x i j b) from rfl,
    hTT]

lemma ifftshift3_fftshift3 {n₁ n₂ n₃ : Nat}
    (x : Fin n₁ → Fin n₂ → Fin n₃ → ℂ) : ifftshift3 (fftshift3 x) = x := by
  rw [fftshift3, ifftshift3,
    mapAxis2_comp_inv _ _ (fun w => ifftshift1_fftshift1 w),
    mapAxis1_comp_inv _ _ (fun w => ifftshift1_fftshift1 w),
    mapAxis0_comp_inv _ _ (fun w => ifftshift1_fftshift1 w)]

lemma ifftn3_fftn3 {n₁ n₂ n₃ : Nat} (x : Fin n₁ → Fin n₂ → Fin n₃ → ℂ) :
    ifftn3 (fftn3 x) = x := by
  rw [fftn3, ifftn3,
    mapAxis2_comp_inv _ _ (fun w => idft1_dft1 w),
    mapAxis1_comp_inv _ _ (fun w => idft1_dft1 w),
    mapAxis0_comp_inv _ _ (fun w => idft1_dft1 w)]

/-! ## Claim theorems: coordinate system -/

/-- Claim C3: in `make_frequencies` (which always uses `indexing="xy"`), with
a 2D shape and `half_space=True` axis 0 is built with `rfftfreq` and axis 1
with `fftfreq`; for any other number of dimensions with `half_space=True`
exactly the last axis is built with `rfftfreq`; with `half_space=False` every
axis is built with `fftfreq`. -/
theorem make_frequencies_axis_selection (ndim idx : Nat) (h : idx < ndim) :
    rfftfreqFlag "xy" ndim idx false = false
    ∧ (ndim = 2 → (rfftfreqFlag "xy" ndim idx true = true ↔ idx = 0))
    ∧ (ndim ≠ 2 → (rfftfreqFlag "xy" ndim idx true = true ↔ idx = ndim - 1)) := by
  refine ⟨rfftfreqFlag_full _ _ _, ?_, ?_⟩
  · rintro rfl
    simp [rfftfreqFlag]
  · intro h2
    simp only [rfftfreqFlag, Bool.not_true, Bool.false_eq_true, if_false]
    simp [h2]
    omega

/-- Witness for Claim C3 at `ndim = 3`, `idx = 2`. -/
theorem make_frequencies_axis_selection_witness :
    (2 : Nat) < 3
    ∧ (rfftfreqFlag "xy" 3 2 false = false
      ∧ ((3 : Nat) = 2 → (rfftfreqFlag "xy" 3 2 true = true ↔ (2 : Nat) = 0))
      ∧ ((3 : Nat) ≠ 2 →
          (rfftfreqFlag "xy" 3 2 true = true ↔ (2 : Nat) = 3 - 1))) :=
  ⟨by decide, make_frequencies_axis_selection 3 2 (by decide)⟩

/-- Claim C7 counterexample: constructing a frequency or coordinate grid with
the non-positive grid spacing `-1` does not raise any error — the grids are
computed and returned, so no `InvalidArgument`-type validation exists. -/
theorem grid_spacing_not_validated :
    ((-1 : ℚ) ≤ 0)
    ∧ exceptOk (make_frequencies [2, 2] (-1) true) = true
    ∧ exceptOk (make_coordinates [2, 2] (-1)) = true := by
  refine ⟨by norm_num, by rfl, by rfl⟩

/-- Claim C7 (amended): the constructors perform no `InvalidArgument`-type
validation of the grid spacing.  For every nonempty shape and half-space
flag, `make_frequencies` returns a grid without raising for every grid
spacing (including zero and negative values — its division happens at the
jax level), and `make_coordinates` returns a grid without raising for every
nonzero grid spacing, including negative ones.  At exactly zero grid
spacing, `make_coordinates` raises `ZeroDivisionError` from the Python-level
`1 / dx` — an arithmetic error, not the claimed `InvalidArgument`
validation. -/
theorem grid_construction_never_validates (shape : List Nat) (gs : ℚ)
    (hs : Bool) (h : shape ≠ []) :
    exceptOk (make_frequencies shape gs hs) = true
    ∧ (gs ≠ 0 → exceptOk (make_coordinates shape gs) = true)
    ∧ (gs = 0 → exceptOk (make_coordinates shape gs) = false) := by
  refine ⟨?_, ?_, ?_⟩
  · rw [make_frequencies, builder_eval shape gs false hs h (by simp)]
    rfl
  · intro hgs
    rw [make_coordinates, builder_eval shape gs true true h (fun _ => hgs)]
    rfl
  · intro h0
    subst h0
    rw [make_coordinates, builder_eval_zero shape true h]
    rfl

/-- Witness for Claim C7 (amended) at shape `[2, 2]`, spacing `1/2`. -/
theorem grid_construction_never_validates_witness :
    ([2, 2] : List Nat) ≠ []
    ∧ (exceptOk (make_frequencies [2, 2] (1 / 2) true) = true
      ∧ ((1 / 2 : ℚ) ≠ 0 → exceptOk (make_coordinates [2, 2] (1 / 2)) = true)
      ∧ ((1 / 2 : ℚ) = 0 →
          exceptOk (make_coordinates [2, 2] (1 / 2)) = false)) :=
  ⟨by decide,
    grid_construction_never_validates [2, 2] (1 / 2) true (by decide)⟩

/-- Claim C8 counterexample: `make_frequencies((3,3), 1, half_space=True)`
returns an array of shape `(3, 2, 2)`, not the declared `(*shape, ndim) =
(3, 3, 2)` — the `rfftfreq` axis is truncated to `3/2 + 1 = 2` entries. -/
theorem make_frequencies_shape_mismatch :
    (make_frequencies [3, 3] 1 true).map NdArrayQ.shape
      = .ok [3, 2, 2]
    ∧ ([3, 2, 2] : List Nat) ≠ [3, 3] ++ [2] :=
  ⟨rfl, by decide⟩

/-- Claim C8 (amended): for every nonempty shape tuple and grid spacing,
`make_frequencies` returns an array of shape `(*shape, ndim)` when
`half_space=False`, and of shape `(*shape[:-1], shape[-1]//2 + 1, ndim)`
when `half_space=True` (the last axis holds only non-negative
frequencies). -/
theorem make_frequencies_output_shape (shape : List Nat) (gs : ℚ) (hs : Bool)
    (h : shape ≠ []) :
    (make_frequencies shape gs hs).map NdArrayQ.shape
      = .ok ((if hs then halfSpaceShape shape else shape)
          ++ [shape.length]) := by
  rw [make_frequencies, builder_eval shape gs false hs h (by simp)]
  show Except.ok ((meshgridStack "xy"
      ((List.range shape.length).map (axis1D shape gs false hs))).shape) = _
  rw [meshgridStack_shape, List.map_map]
  have hlen : ((List.range shape.length).map (axis1D shape gs false hs)).length
      = shape.length := by simp
  rw [hlen]
  have hcomp : (List.range shape.length).map
      (List.length ∘ axis1D shape gs false hs)
      = (List.range shape.length).map
        (fun idx => (axis1D shape gs false hs idx).length) := rfl
  rw [hcomp]
  cases hs with
  | false =>
    rw [List.map_congr_left (g := fun idx => (swap12 shape).getD idx 0)
      (by
        intro idx _
        rw [length_axis1D_freq, rfftfreqFlag_full, if_neg]
        simp)]
    rw [show shape.length = (swap12 shape).length from (length_swap12 shape).symm,
      map_getD_range]
    show Except.ok (swap12 (swap12 shape) ++ _) = _
    rw [swap12_swap12]
    simp [length_swap12]
  | true =>
    by_cases h2 : shape.length = 2
    · obtain ⟨s0, s1, rfl⟩ : ∃ s0 s1, shape = [s0, s1] := by
        match shape, h2 with
        | [s0, s1], _ => exact ⟨s0, s1, rfl⟩
      show Except.ok (permXY "xy" (List.map
          (fun idx => (axis1D [s0, s1] gs false true idx).length) [0, 1])
          ++ [2]) = Except.ok (halfSpaceShape [s0, s1] ++ [2])
      have hf0 : rfftfreqFlag "xy" 2 0 true = true := rfl
      have hf1 : rfftfreqFlag "xy" 2 1 true = false := rfl
      simp [length_axis1D_freq, hf0, hf1, permXY, swap12, halfSpaceShape]
    · rw [axes_lengths_halfspace shape gs h h2]
      show Except.ok (swap12 _ ++ _) = _
      rw [swap12_dropLast_append _ _ h h2, swap12_getD_last shape h2]
      rfl

/-- Witness for Claim C8 (amended) at shape `[4, 6]`, spacing `1`,
half-space on. -/
theorem make_frequencies_output_shape_witness :
    ([4, 6] : List Nat) ≠ []
    ∧ (make_frequencies [4, 6] 1 true).map NdArrayQ.shape
        = .ok ((if true then halfSpaceShape [4, 6] else [4, 6])
            ++ [([4, 6] : List Nat).length]) :=
  ⟨by decide, make_frequencies_output_shape [4, 6] 1 true (by decide)⟩

/-! ## Claim theorems: masks -/

/-- Claim C5 counterexample: with the one-point grid `{(3,4)}` (radial
distance `5`), radius `1` and rolloff `-1`, the buffer holds `1.0` at a
voxel whose distance strictly exceeds the radius, because the final
`where` (the `1.0` region, whose bound `radius - rolloff_width = 6` is
inflated by the negative rolloff width) overrides the `0.0` region. -/
theorem circular_mask_negative_rolloff :
    CircularMask.buffer [[3, 4]] 1 (-1) = [1]
    ∧ (1 : ℝ) < normR [3, 4] := by
  have hsum : (([3, 4] : List ℝ).map (fun x => x ^ 2)).sum = 25 := by
    norm_num
  have h5 : normR [3, 4] = 5 := by
    rw [normR, hsum, show (25 : ℝ) = 5 ^ 2 by norm_num,
      Real.sqrt_sq (by norm_num)]
  constructor
  · show ([normR [3, 4]].map (fun r =>
        if r ≤ 1 - (-1) * arrayMax [normR [3, 4]] then (1 : ℝ)
        else if r > 1 then 0
        else raisedCosine 1 ((-1) * arrayMax [normR [3, 4]]) r)) = [1]
    rw [h5]
    have hm : arrayMax [(5 : ℝ)] = 5 := by
      rw [arrayMax]
      simp only [List.foldr_cons, List.foldr_nil]
      rw [max_eq_left (by norm_num)]
    simp only [List.map_cons, List.map_nil, hm]
    rw [if_pos (by norm_num)]
  · rw [h5]
    norm_num

/-- Claim C5 (amended): for a nonnegative rolloff (the claim fails for
negative rolloff, where the `1.0` region extends past the radius), with
`rolloff_width = rolloff * max ‖coords‖`, each buffer entry is exactly `1.0`
where the radial distance is at most `radius - rolloff_width`, exactly `0.0`
where it exceeds `radius`, and the raised-cosine taper
`0.5*(1 + cos(pi*(r - radius - rolloff_width)/rolloff_width))` — which is
monotonically decreasing across the taper band — in between; with
`rolloff = 0` the mask degenerates to a hard step at `radius`. -/
theorem circular_mask_boundary (grid : List (List ℝ)) (radius rolloff : ℝ)
    (hro : 0 ≤ rolloff) (i : Nat) (hi : i < grid.length) :
    (normR (grid.getD i []) ≤ radius - rolloff * arrayMax (grid.map normR) →
        (CircularMask.buffer grid radius rolloff).getD i 0 = 1)
    ∧ (radius < normR (grid.getD i []) →
        (CircularMask.buffer grid radius rolloff).getD i 0 = 0)
    ∧ (radius - rolloff * arrayMax (grid.map normR) < normR (grid.getD i []) →
        normR (grid.getD i []) ≤ radius →
        (CircularMask.buffer grid radius rolloff).getD i 0
          = raisedCosine radius (rolloff * arrayMax (grid.map normR))
              (normR (grid.getD i [])))
    ∧ (∀ r1 r2 : ℝ,
        radius - rolloff * arrayMax (grid.map normR) < r1 → r1 ≤ r2 →
        r2 ≤ radius →
        raisedCosine radius (rolloff * arrayMax (grid.map normR)) r2
          ≤ raisedCosine radius (rolloff * arrayMax (grid.map normR)) r1)
    ∧ (rolloff = 0 →
        (CircularMask.buffer grid radius rolloff).getD i 0
          = if normR (grid.getD i []) ≤ radius then 1 else 0) := by
  have hw0 : 0 ≤ rolloff * arrayMax (grid.map normR) :=
    mul_nonneg hro (arrayMax_nonneg _)
  refine ⟨?_, ?_, ?_, ?_, ?_⟩
  · intro h
    rw [circular_mask_getD grid radius rolloff i hi, if_pos h]
  · intro h
    rw [circular_mask_getD grid radius rolloff i hi,
      if_neg (not_le.mpr (by linarith)), if_pos h]
  · intro hlt hle
    rw [circular_mask_getD grid radius rolloff i hi, if_neg (not_le.mpr hlt),
      if_neg (not_lt.mpr hle)]
  · exact fun r1 r2 ha hb hc => raisedCosine_antitone _ _ _ _ ha hb hc
  · intro h0
    subst h0
    rw [circular_mask_getD grid radius 0 i hi]
    simp only [zero_mul, sub_zero]
    by_cases hr : normR (grid.getD i []) ≤ radius
    · rw [if_pos hr, if_pos hr]
    · rw [if_neg hr, if_pos (not_le.mp hr), if_neg hr]

/-- Witness for Claim C5 (amended) at the grid `{(3,4)}`, radius `6`,
rolloff `0`, voxel `0`. -/
theorem circular_mask_boundary_witness :
    (0 : ℝ) ≤ 0 ∧ (0 : Nat) < ([[3, 4]] : List (List ℝ)).length
    ∧ ((normR (([[3, 4]] : List (List ℝ)).getD 0 []) ≤
          6 - 0 * arrayMax (([[3, 4]] : List (List ℝ)).map normR) →
        (CircularMask.buffer [[3, 4]] 6 0).getD 0 0 = 1)
      ∧ ((6 : ℝ) < normR (([[3, 4]] : List (List ℝ)).getD 0 []) →
        (CircularMask.buffer [[3, 4]] 6 0).getD 0 0 = 0)
      ∧ ((6 : ℝ) - 0 * arrayMax (([[3, 4]] : List (List ℝ)).map normR) <
            normR (([[3, 4]] : List (List ℝ)).getD 0 []) →
          normR (([[3, 4]] : List (List ℝ)).getD 0 []) ≤ 6 →
          (CircularMask.buffer [[3, 4]] 6 0).getD 0 0
            = raisedCosine 6 (0 * arrayMax (([[3, 4]] : List (List ℝ)).map
                normR)) (normR (([[3, 4]] : List (List ℝ)).getD 0 [])))
      ∧ (∀ r1 r2 : ℝ,
          (6 : ℝ) - 0 * arrayMax (([[3, 4]] : List (List ℝ)).map normR) < r1 →
          r1 ≤ r2 → r2 ≤ 6 →
          raisedCosine 6 (0 * arrayMax (([[3, 4]] : List (List ℝ)).map normR))
              r2
            ≤ raisedCosine 6 (0 * arrayMax (([[3, 4]] : List (List ℝ)).map
                normR)) r1)
      ∧ ((0 : ℝ) = 0 →
          (CircularMask.buffer [[3, 4]] 6 0).getD 0 0
            = if normR (([[3, 4]] : List (List ℝ)).getD 0 []) ≤ 6 then 1
              else 0)) :=
  ⟨le_refl 0, by simp,
    circular_mask_boundary [[3, 4]] 6 0 (le_refl 0) 0 (by simp)⟩

/-- Claim C10: every entry of the `CircularMask` buffer lies in `[0, 1]`
(the regions contribute `1`, `0`, or a raised cosine bounded by the range of
`cos`), and consequently applying the mask to an image never increases the
magnitude of any pixel. -/
theorem circular_mask_unit_interval (grid : List (List ℝ))
    (radius rolloff : ℝ) (h1 : 0 ≤ radius) (h2 : 0 < rolloff) :
    (∀ i : Nat, 0 ≤ (CircularMask.buffer grid radius rolloff).getD i 0
        ∧ (CircularMask.buffer grid radius rolloff).getD i 0 ≤ 1)
    ∧ ∀ (image : List ℝ) (i : Nat),
        |(maskApply (CircularMask.buffer grid radius rolloff) image).getD i 0|
          ≤ |image.getD i 0| := by
  have hbuf : ∀ i : Nat,
      0 ≤ (CircularMask.buffer grid radius rolloff).getD i 0
      ∧ (CircularMask.buffer grid radius rolloff).getD i 0 ≤ 1 := by
    intro i
    by_cases hi : i < grid.length
    · rw [circular_mask_getD grid radius rolloff i hi]
      split_ifs with hA hB
      · exact ⟨zero_le_one, le_refl 1⟩
      · exact ⟨le_refl 0, zero_le_one⟩
      · exact ⟨raisedCosine_nonneg _ _ _, raisedCosine_le_one _ _ _⟩
    · have hlength : (CircularMask.buffer grid radius rolloff).length
          = grid.length := by
        show (((grid.map normR)).map _).length = grid.length
        simp
      rw [List.getD_eq_default _ _ (by omega)]
      exact ⟨le_refl 0, zero_le_one⟩
  refine ⟨hbuf, ?_⟩
  intro image i
  rw [maskApply, getD_zipWith_mul, abs_mul]
  have hb := hbuf i
  calc |image.getD i 0| * |(CircularMask.buffer grid radius rolloff).getD i 0|
      ≤ |image.getD i 0| * 1 := by
        apply mul_le_mul_of_nonneg_left _ (abs_nonneg _)
        rw [abs_le]
        exact ⟨by linarith [hb.1], hb.2⟩
    _ = |image.getD i 0| := mul_one _

/-! ## Claim theorems: density builder and ice -/

/-- Claim C1: mass conservation of the density builder — for every atom set
(aligned positions and scattering parameter vectors), every coordinate grid
of any positive resolution, and every nonzero voxel size `s`, the sum of the
density volume times `s^3` equals the sum of the amplitude parameters
`ff_a`. -/
theorem mass_conservation {n₁ n₂ n₃ : Nat}
    (atom_positions : List (ℝ × ℝ × ℝ)) (ff_a ff_b : List ℝ)
    (grid : Fin n₁ → Fin n₂ → Fin n₃ → ℝ × ℝ × ℝ) (s : ℝ)
    (hlen1 : atom_positions.length = ff_a.length)
    (hlen2 : ff_a.length = ff_b.length) (hs : s ≠ 0)
    (h1 : 0 < n₁) (h2 : 0 < n₂) (h3 : 0 < n₃) :
    (∑ i : Fin n₁, ∑ j : Fin n₂, ∑ k : Fin n₃,
        build_real_space_voxels_from_atoms atom_positions ff_a ff_b grid s
          i j k) * s ^ 3
      = ff_a.sum := by
  simp only [build_real_space_voxels_from_atoms]
  rw [triple_sum_list_sum (atom_positions.zip (ff_a.zip ff_b))
    (fun pab i j k =>
      pab.2.1 * gaussianVoxelWeight grid s pab.2.2 pab.1 (grid i j k))]
  have hmap : ((atom_positions.zip (ff_a.zip ff_b)).map (fun pab =>
      ∑ i : Fin n₁, ∑ j : Fin n₂, ∑ k : Fin n₃,
        pab.2.1 * gaussianVoxelWeight grid s pab.2.2 pab.1 (grid i j k)))
      = ((atom_positions.zip (ff_a.zip ff_b)).map
          (fun pab => pab.2.1 / s ^ 3)) := by
    apply List.map_congr_left
    intro e _
    exact weight_sum grid s e.2.2 e.1 e.2.1 hs h1 h2 h3
  rw [hmap, zip_sum_div_mul _ _ (pow_ne_zero 3 hs),
    zip_map_amp atom_positions ff_a ff_b hlen1 hlen2]

/-- Witness for Claim C1: one atom of amplitude `2` on a `1×1×1` grid with
voxel size `1`. -/
theorem mass_conservation_witness :
    (([((0 : ℝ), (0 : ℝ), (0 : ℝ))] : List (ℝ × ℝ × ℝ)).length
        = ([(2 : ℝ)] : List ℝ).length)
    ∧ ([(2 : ℝ)] : List ℝ).length = ([(1 : ℝ)] : List ℝ).length
    ∧ (1 : ℝ) ≠ 0 ∧ (0 : Nat) < 1
    ∧ ((∑ i : Fin 1, ∑ j : Fin 1, ∑ k : Fin 1,
        build_real_space_voxels_from_atoms [((0 : ℝ), (0 : ℝ), (0 : ℝ))]
          [(2 : ℝ)] [(1 : ℝ)]
          (fun _ _ _ => ((0 : ℝ), (0 : ℝ), (0 : ℝ))) 1 i j k) * 1 ^ 3
      = ([(2 : ℝ)] : List ℝ).sum) :=
  ⟨rfl, rfl, one_ne_zero, Nat.one_pos,
    mass_conservation [((0 : ℝ), (0 : ℝ), (0 : ℝ))] [(2 : ℝ)] [(1 : ℝ)]
      (fun _ _ _ => ((0 : ℝ), (0 : ℝ), (0 : ℝ))) 1 rfl rfl one_ne_zero
      Nat.one_pos Nat.one_pos Nat.one_pos⟩

/-- Claim C4: batch consistency — the batched (vmapped) density builder,
evaluated at each frame index `i` of a trajectory, equals the single-frame
builder applied directly to frame `i`; there is no cross-frame
interaction. -/
theorem trajectory_batch_consistency {n₁ n₂ n₃ : Nat}
    (trajectory : List (List (ℝ × ℝ × ℝ))) (ff_a ff_b : List ℝ)
    (grid : Fin n₁ → Fin n₂ → Fin n₃ → ℝ × ℝ × ℝ) (voxel_size : ℝ)
    (i : Nat) (hi : i < trajectory.length) :
    (build_voxels_from_trajectories trajectory ff_a ff_b grid
        voxel_size).getD i (fun _ _ _ => 0)
      = build_real_space_voxels_from_atoms (trajectory.getD i []) ff_a ff_b
          grid voxel_size := by
  have hlen : i < (build_voxels_from_trajectories trajectory ff_a ff_b grid
      voxel_size).length := by
    simpa [build_voxels_from_trajectories] using hi
  rw [List.getD_eq_getElem _ _ hlen, List.getD_eq_getElem _ _ hi]
  simp [build_voxels_from_trajectories]

/-- Witness for Claim C4: a two-frame trajectory, frame `0`. -/
theorem trajectory_batch_consistency_witness :
    (0 : Nat) < ([[((0 : ℝ), (0 : ℝ), (0 : ℝ))], [((1 : ℝ), (0 : ℝ), (0 : ℝ))]]
        : List (List (ℝ × ℝ × ℝ))).length
    ∧ (build_voxels_from_trajectories
          [[((0 : ℝ), (0 : ℝ), (0 : ℝ))], [((1 : ℝ), (0 : ℝ), (0 : ℝ))]]
          [(1 : ℝ)] [(1 : ℝ)]
          (fun _ _ _ => ((0 : ℝ), (0 : ℝ), (0 : ℝ)) :
            Fin 1 → Fin 1 → Fin 1 → ℝ × ℝ × ℝ) 1).getD 0 (fun _ _ _ => 0)
      = build_real_space_voxels_from_atoms
          (([[((0 : ℝ), (0 : ℝ), (0 : ℝ))], [((1 : ℝ), (0 : ℝ), (0 : ℝ))]]
            : List (List (ℝ × ℝ × ℝ))).getD 0 []) [(1 : ℝ)] [(1 : ℝ)]
          (fun _ _ _ => ((0 : ℝ), (0 : ℝ), (0 : ℝ)) :
            Fin 1 → Fin 1 → Fin 1 → ℝ × ℝ × ℝ) 1 :=
  ⟨by simp,
    trajectory_batch_consistency
      [[((0 : ℝ), (0 : ℝ), (0 : ℝ))], [((1 : ℝ), (0 : ℝ), (0 : ℝ))]]
      [(1 : ℝ)] [(1 : ℝ)]
      (fun _ _ _ => ((0 : ℝ), (0 : ℝ), (0 : ℝ)) :
        Fin 1 → Fin 1 → Fin 1 → ℝ × ℝ × ℝ) 1 0 (by simp)⟩

/-- Claim C2: real/Fourier consistency of the two density-builder variants —
for every atom set and coordinate grid, inverse-Fourier-transforming the
Fourier-space voxel grid (undoing the zero-frequency shift convention with
`ifftshift` before `ifftn`) yields exactly the real-space voxel grid up to
the fixed `[1,0,2]` axis permutation. -/
theorem voxel_grid_real_fourier_agreement {n₁ n₂ n₃ : Nat}
    (atom_positions : List (ℝ × ℝ × ℝ)) (ff_a ff_b : List ℝ)
    (grid : Fin n₁ → Fin n₂ → Fin n₃ → ℝ × ℝ × ℝ) (voxel_size : ℝ) :
    ifftn3 (ifftshift3 (fourier_voxel_grid_from_atoms atom_positions ff_a
        ff_b grid voxel_size))
      = complexify (transpose102 (build_real_space_voxels_from_atoms
          atom_positions ff_a ff_b grid voxel_size)) := by
  rw [fourier_voxel_grid_from_atoms, ifftshift3_fftshift3, ifftn3_fftn3]

/-- Claim C6: DC-zeroing and null ice — for every key, frequency grid,
variance kernel and normal realization, `GaussianIce.sample` is exactly
`0+0i` at index `[0,0]`; and `NullIce.sample` is zero everywhere (its
entries are real-valued, `ℝ`, by the type of `NullIce.sample`, not complex
as the abstract contract declares). -/
theorem ice_dc_zero_and_null_ice_zero {m n : Nat}
    (variance : (Fin m → Fin n → ℝ × ℝ) → Fin m → Fin n → ℝ)
    (normal : PRNGKey → Fin m → Fin n → ℂ) (key : PRNGKey)
    (freqs : Fin m → Fin n → ℝ × ℝ) (hm : 0 < m) (hn : 0 < n) :
    GaussianIce.sample variance normal key freqs ⟨0, hm⟩ ⟨0, hn⟩ = 0
    ∧ ∀ (key2 : PRNGKey) (freqs2 : Fin m → Fin n → ℝ × ℝ) (i : Fin m)
        (j : Fin n), NullIce.sample key2 freqs2 i j = (0 : ℝ) := by
  refine ⟨?_, fun _ _ _ _ => rfl⟩
  simp [GaussianIce.sample]

/-- Witness for Claim C6 on a `1×1` grid. -/
theorem ice_dc_zero_and_null_ice_zero_witness :
    (0 : Nat) < 1 ∧ (0 : Nat) < 1
    ∧ (GaussianIce.sample (fun _ _ _ => 1) (fun _ _ _ => 1) 0
          (fun _ _ => ((0 : ℝ), (0 : ℝ))) ⟨0, Nat.one_pos⟩
          ⟨0, Nat.one_pos⟩ = 0
      ∧ ∀ (key2 : PRNGKey) (freqs2 : Fin 1 → Fin 1 → ℝ × ℝ) (i : Fin 1)
          (j : Fin 1), NullIce.sample key2 freqs2 i j = (0 : ℝ)) :=
  ⟨Nat.one_pos, Nat.one_pos,
    ice_dc_zero_and_null_ice_zero (fun _ _ _ => 1) (fun _ _ _ => 1) 0
      (fun _ _ => ((0 : ℝ), (0 : ℝ))) Nat.one_pos Nat.one_pos⟩

/-- Claim C9: the ice render wrapper ignores its exit-plane image argument —
for every key, configuration and any two exit-plane images,
`AbstractIce.__call__` returns exactly `sample key (padded frequency grid)`,
so the image argument never influences the output. -/
theorem ice_call_ignores_exit_image {m n : Nat} {β : Type}
    (sample : PRNGKey → (Fin m → Fin n → ℝ × ℝ) → β) (key : PRNGKey)
    (image1 image2 : Fin m → Fin n → ℂ) (config : ImageConfig m n) :
    AbstractIce.call sample key image1 config
        = sample key config.padded_frequency_grid_in_angstroms
    ∧ AbstractIce.call sample key image1 config
        = AbstractIce.call sample key image2 config :=
  ⟨rfl, rfl⟩

/-- Witness for Claim C10 at the grid `{(3,4)}`, radius `1`, rolloff `1`. -/
theorem circular_mask_unit_interval_witness :
    (0 : ℝ) ≤ 1 ∧ (0 : ℝ) < 1
    ∧ ((∀ i : Nat, 0 ≤ (CircularMask.buffer [[3, 4]] 1 1).getD i 0
          ∧ (CircularMask.buffer [[3, 4]] 1 1).getD i 0 ≤ 1)
      ∧ ∀ (image : List ℝ) (i : Nat),
          |(maskApply (CircularMask.buffer [[3, 4]] 1 1) image).getD i 0|
            ≤ |image.getD i 0|) :=
  ⟨by norm_num, by norm_num,
    circular_mask_unit_interval [[3, 4]] 1 1 (by norm_num) (by norm_num)⟩

end Cryojax
